import Mathlib

/-!
Verification of the client-side correctness logic of the curlme CLI
(`src/config.ts` and `src/index.ts`), shallowly embedded in Lean.

Conventions of the embedding:
* JavaScript strings are Lean `String`s; all string operations are defined
  through `String.data` (`List Char`) so that they compute by kernel reduction.
  The ids, headers and refs handled by the CLI are ASCII, for which code-unit
  and code-point indexing agree.
* JavaScript objects used as string-keyed maps (`activeBinsByWorkspace`,
  `recentBinsByWorkspace`, `headers`) are association lists with first-match
  lookup; JS objects have unique keys, so lookup/insert/delete on an
  association list is an exact model.
* `process.cwd()` / `getWorkspaceKey()` read the filesystem, so the workspace
  key is passed to each config operation as an explicit parameter.
* Epoch-millisecond timestamps and byte counts are `Nat`.
-/

/-- JS `s.startsWith(p)` (character-prefix test). -/
def strStartsWith (s p : String) : Bool :=
  s.data.take p.data.length == p.data

/-- JS `s.slice(0, n)` on ASCII strings. -/
def strTake (s : String) (n : Nat) : String :=
  ⟨s.data.take n⟩

/-- Whether every character of `s` satisfies `p` (used for the `^\d+$` test). -/
def strAll (s : String) (p : Char → Bool) : Bool :=
  s.data.all p

/-- Decimal value of an all-digit string, as computed by JS `Number` on a
digit-only string. -/
def decVal (s : String) : Nat :=
  s.data.foldl (fun acc c => acc * 10 + (c.toNat - 48)) 0

/-- JS `s.trim()`: strip whitespace from both ends. -/
def strTrim (s : String) : String :=
  ⟨((s.data.dropWhile Char.isWhitespace).reverse.dropWhile Char.isWhitespace).reverse⟩

/-- First-match lookup in an association list: JS `map[key]`, `undefined`
becoming `none`. -/
def alGet {β : Type} : List (String × β) → String → Option β
  | [], _ => none
  | (k, v) :: rest, key => if k = key then some v else alGet rest key

/-- JS `map[key] = v`: overwrite the (unique) binding for `key`, or append it. -/
def alSet {β : Type} : List (String × β) → String → β → List (String × β)
  | [], key, val => [(key, val)]
  | (k, v) :: rest, key, val =>
    if k = key then (key, val) :: rest else (k, v) :: alSet rest key val

/-- JS `delete map[key]`. -/
def alErase {β : Type} : List (String × β) → String → List (String × β)
  | [], _ => []
  | (k, v) :: rest, key =>
    if k = key then alErase rest key else (k, v) :: alErase rest key

theorem alGet_alSet_self {β : Type} (m : List (String × β)) (k : String) (v : β) :
    alGet (alSet m k v) k = some v := by
  induction m with
  | nil => simp [alSet, alGet]
  | cons p rest ih =>
    by_cases h : p.1 = k <;> simp [alSet, alGet, h, ih]

theorem alGet_alSet_ne {β : Type} (m : List (String × β)) (k k' : String) (v : β)
    (h : k' ≠ k) : alGet (alSet m k v) k' = alGet m k' := by
  induction m with
  | nil => simp [alSet, alGet, Ne.symm h]
  | cons p rest ih =>
    by_cases hp : p.1 = k
    · simp [alSet, alGet, hp, Ne.symm h]
    · by_cases hp' : p.1 = k' <;> simp [alSet, alGet, hp, hp', h, ih]

theorem alGet_alErase_self {β : Type} (m : List (String × β)) (k : String) :
    alGet (alErase m k) k = none := by
  induction m with
  | nil => simp [alErase, alGet]
  | cons p rest ih =>
    by_cases h : p.1 = k <;> simp [alErase, alGet, h, ih]

theorem alGet_alErase_ne {β : Type} (m : List (String × β)) (k k' : String)
    (h : k' ≠ k) : alGet (alErase m k) k' = alGet m k' := by
  induction m with
  | nil => simp [alErase, alGet]
  | cons p rest ih =>
    by_cases hp : p.1 = k
    · simp [alErase, alGet, hp, Ne.symm h, ih]
    · by_cases hp' : p.1 = k' <;> simp [alErase, alGet, hp, hp', h, ih]

theorem alGet_isSome_iff_mem_keys {β : Type} (m : List (String × β)) (k : String) :
    (alGet m k).isSome = true ↔ k ∈ m.map Prod.fst := by
  induction m with
  | nil => simp [alGet]
  | cons p rest ih =>
    by_cases h : p.1 = k
    · simp [alGet, h]
    · simp [alGet, h, ih, Ne.symm h]

/-- The persisted configuration document of `src/config.ts` (the `Config`
interface).  The two by-workspace maps are written back through `?? {}`
defaults in every accessor, so they are modelled as plain lists defaulting
to `[]`. -/
structure Config where
  apiKey : Option String := none
  baseUrl : String := "https://curlme.io"
  activeBinId : Option String := none
  globalActiveBinId : Option String := none
  activeBinsByWorkspace : List (String × String) := []
  recentBinsByWorkspace : List (String × List String) := []
  hasSeenFeedbackPrompt : Option Bool := none
deriving DecidableEq

/-- JS truthiness of an optional string config value
(`if (config.get('activeBinId'))`): present and non-empty. -/
def jsTruthyStr : Option String → Bool
  | none => false
  | some s => s ≠ ""

/-- Model of `getActiveBin` from `src/config.ts`.  The `??` chain is nullish
coalescing: a present empty string does not fall through. -/
def getActiveBin (cfg : Config) (workspace : String) (global : Bool) : Option String :=
  if global then cfg.globalActiveBinId
  else
    match alGet cfg.activeBinsByWorkspace workspace with
    | some v => some v
    | none =>
      match cfg.activeBinId with
      | some v => some v
      | none => cfg.globalActiveBinId

/-- Model of `setActiveBin` from `src/config.ts`. -/
def setActiveBin (cfg : Config) (workspace : String) (id : String) (global : Bool) : Config :=
  if global then { cfg with globalActiveBinId := some id }
  else
    { cfg with
      activeBinsByWorkspace := alSet cfg.activeBinsByWorkspace workspace id
      activeBinId := some id }

/-- Model of `clearActiveBin` from `src/config.ts`.  The legacy slot is deleted only
behind the truthiness check `if (config.get('activeBinId'))`. -/
def clearActiveBin (cfg : Config) (workspace : String) (global : Bool) : Config :=
  if global then { cfg with globalActiveBinId := none }
  else
    let cfg' := { cfg with activeBinsByWorkspace := alErase cfg.activeBinsByWorkspace workspace }
    if jsTruthyStr cfg'.activeBinId then { cfg' with activeBinId := none } else cfg'

/-- Model of `getRecentBins` from `src/config.ts`. -/
def getRecentBins (cfg : Config) (workspace : String) (global : Bool) : List String :=
  if global then
    match cfg.globalActiveBinId with
    | some g => if g ≠ "" then [g] else []
    | none => []
  else (alGet cfg.recentBinsByWorkspace workspace).getD []

/-- Model of `pushRecentBin` from `src/config.ts`:
`[id, ...current.filter(v => v !== id)].slice(0, 10)`. -/
def pushRecentBin (cfg : Config) (workspace : String) (id : String) (global : Bool) : Config :=
  if global then cfg
  else
    let current := (alGet cfg.recentBinsByWorkspace workspace).getD []
    let next := (id :: current.filter (fun v => v ≠ id)).take 10
    { cfg with recentBinsByWorkspace := alSet cfg.recentBinsByWorkspace workspace next }

/-- C6: `setActiveBin(id, false)` followed by `getActiveBin(false)` in the same
workspace returns `id`; and `getActiveBin(false)` in a workspace with no entry
in `activeBinsByWorkspace` returns the legacy `activeBinId` if set, else
`globalActiveBinId`. -/
theorem set_then_get_active_bin (cfg : Config) (w id : String) :
    getActiveBin (setActiveBin cfg w id false) w false = some id ∧
    (∀ cfg' : Config, ∀ w' : String,
      alGet cfg'.activeBinsByWorkspace w' = none →
      (cfg'.activeBinId.isSome → getActiveBin cfg' w' false = cfg'.activeBinId) ∧
      (cfg'.activeBinId = none → getActiveBin cfg' w' false = cfg'.globalActiveBinId)) := by
  refine ⟨?_, ?_⟩
  · simp [getActiveBin, setActiveBin, alGet_alSet_self]
  · intro cfg' w' hnone
    constructor
    · intro hsome
      match h : cfg'.activeBinId with
      | some v => simp [getActiveBin, hnone, h]
      | none => simp [h] at hsome
    · intro hnoneLegacy
      simp [getActiveBin, hnone, hnoneLegacy]

/-- Witness for `set_then_get_active_bin` at a concrete configuration. -/
theorem set_then_get_active_bin_witness :
    getActiveBin (setActiveBin { globalActiveBinId := some "g" } "ws1" "bin9" false) "ws1" false
        = some "bin9" ∧
    getActiveBin ({ activeBinId := some "legacy" } : Config) "ws2" false = some "legacy" ∧
    getActiveBin ({ globalActiveBinId := some "g" } : Config) "ws2" false = some "g" := by
  refine ⟨(set_then_get_active_bin { globalActiveBinId := some "g" } "ws1" "bin9").1, ?_, ?_⟩
  · exact ((set_then_get_active_bin ⟨none, "https://curlme.io", none, none, [], [], none⟩
      "x" "y").2 { activeBinId := some "legacy" } "ws2" (by decide)).1 (by decide)
  · exact ((set_then_get_active_bin ⟨none, "https://curlme.io", none, none, [], [], none⟩
      "x" "y").2 { globalActiveBinId := some "g" } "ws2" (by decide)).2 (by decide)

/-- C7: `clearActiveBin(false)` deletes the current workspace's entry and the
legacy `activeBinId` (when set, i.e. truthy), leaving `globalActiveBinId` and
other workspaces' entries unchanged; `clearActiveBin(true)` deletes only
`globalActiveBinId`, leaving the workspace map and the legacy slot unchanged. -/
theorem clear_active_bin_effects (cfg : Config) (w : String) :
    (alGet (clearActiveBin cfg w false).activeBinsByWorkspace w = none) ∧
    (∀ w' : String, w' ≠ w →
      alGet (clearActiveBin cfg w false).activeBinsByWorkspace w'
        = alGet cfg.activeBinsByWorkspace w') ∧
    ((clearActiveBin cfg w false).globalActiveBinId = cfg.globalActiveBinId) ∧
    ((clearActiveBin cfg w false).activeBinId
        = if jsTruthyStr cfg.activeBinId then none else cfg.activeBinId) ∧
    ((clearActiveBin cfg w true).globalActiveBinId = none) ∧
    ((clearActiveBin cfg w true).activeBinsByWorkspace = cfg.activeBinsByWorkspace) ∧
    ((clearActiveBin cfg w true).activeBinId = cfg.activeBinId) := by
  refine ⟨?_, ?_, ?_, ?_, ?_, ?_, ?_⟩
  · by_cases h : jsTruthyStr cfg.activeBinId <;>
      simp [clearActiveBin, h, alGet_alErase_self]
  · intro w' hw
    by_cases h : jsTruthyStr cfg.activeBinId <;>
      simp [clearActiveBin, h, alGet_alErase_ne _ _ _ hw]
  · by_cases h : jsTruthyStr cfg.activeBinId <;> simp [clearActiveBin, h]
  · by_cases h : jsTruthyStr cfg.activeBinId <;> simp [clearActiveBin, h]
  · simp [clearActiveBin]
  · simp [clearActiveBin]
  · simp [clearActiveBin]

/-- Witness for `clear_active_bin_effects` at a concrete configuration with a
second workspace entry. -/
theorem clear_active_bin_effects_witness :
    (alGet (clearActiveBin
        { activeBinId := some "legacy", globalActiveBinId := some "g",
          activeBinsByWorkspace := [("wsA", "binA"), ("wsB", "binB")] }
        "wsA" false).activeBinsByWorkspace "wsA" = none) ∧
    (alGet (clearActiveBin
        { activeBinId := some "legacy", globalActiveBinId := some "g",
          activeBinsByWorkspace := [("wsA", "binA"), ("wsB", "binB")] }
        "wsA" false).activeBinsByWorkspace "wsB" = some "binB") := by
  constructor
  · exact (clear_active_bin_effects
      { activeBinId := some "legacy", globalActiveBinId := some "g",
        activeBinsByWorkspace := [("wsA", "binA"), ("wsB", "binB")] } "wsA").1
  · have h := ((clear_active_bin_effects
      { activeBinId := some "legacy", globalActiveBinId := some "g",
        activeBinsByWorkspace := [("wsA", "binA"), ("wsB", "binB")] } "wsA").2.1
      "wsB" (by decide))
    rw [h]
    decide

/-- C8: `pushRecentBin(id, false)` yields a workspace list headed by `id`,
duplicate-free (given a duplicate-free input), of length at most 10, whose
tail preserves the relative order of the other entries; with 10 distinct
entries not containing `id`, the oldest entry is evicted.
`pushRecentBin(id, true)` is a no-op. -/
theorem push_recent_bin_effects (cfg : Config) (w id : String) :
    pushRecentBin cfg w id true = cfg ∧
    (((alGet (pushRecentBin cfg w id false).recentBinsByWorkspace w).getD []).head?
        = some id) ∧
    (((alGet (pushRecentBin cfg w id false).recentBinsByWorkspace w).getD []).length ≤ 10) ∧
    (((alGet cfg.recentBinsByWorkspace w).getD []).Nodup →
      ((alGet (pushRecentBin cfg w id false).recentBinsByWorkspace w).getD []).Nodup) ∧
    (((alGet (pushRecentBin cfg w id false).recentBinsByWorkspace w).getD []).tail.Sublist
        ((alGet cfg.recentBinsByWorkspace w).getD [])) ∧
    (((alGet cfg.recentBinsByWorkspace w).getD []).length = 10 →
      id ∉ (alGet cfg.recentBinsByWorkspace w).getD [] →
      alGet (pushRecentBin cfg w id false).recentBinsByWorkspace w
        = some (id :: ((alGet cfg.recentBinsByWorkspace w).getD []).take 9)) := by
  set current := (alGet cfg.recentBinsByWorkspace w).getD [] with hcur
  have hget : alGet (pushRecentBin cfg w id false).recentBinsByWorkspace w
      = some ((id :: current.filter (fun v => v ≠ id)).take 10) := by
    simp [pushRecentBin, alGet_alSet_self, hcur]
  refine ⟨by simp [pushRecentBin], ?_, ?_, ?_, ?_, ?_⟩
  · rw [hget]
    simp [List.take_succ_cons]
  · rw [hget]
    simp [List.length_take]
  · intro hnd
    rw [hget]
    simp only [List.take_succ_cons, Option.getD_some, List.nodup_cons]
    constructor
    · intro hmem
      have := (List.take_sublist 9 _).subset hmem
      simp [List.mem_filter] at this
    · exact ((List.take_sublist 9 _).trans (List.filter_sublist _)).nodup hnd
  · rw [hget]
    simp only [List.take_succ_cons, Option.getD_some, List.tail_cons]
    exact (List.take_sublist 9 _).trans (List.filter_sublist _)
  · intro hlen hnotmem
    rw [hget]
    have hfilter : current.filter (fun v => v ≠ id) = current := by
      rw [List.filter_eq_self]
      intro a ha
      simp only [ne_eq, decide_eq_true_eq]
      intro heq
      exact hnotmem (heq ▸ ha)
    rw [hfilter]
    rfl

/-- Witness for `push_recent_bin_effects`: pushing an 11th distinct id onto a
full duplicate-free list keeps the head new, evicts the oldest entry, and the
global push is a no-op. -/
theorem push_recent_bin_effects_witness :
    pushRecentBin
      { recentBinsByWorkspace :=
          [("ws", ["b1","b2","b3","b4","b5","b6","b7","b8","b9","b10"])] }
      "ws" "b0" true
      = { recentBinsByWorkspace :=
          [("ws", ["b1","b2","b3","b4","b5","b6","b7","b8","b9","b10"])] } ∧
    alGet (pushRecentBin
      { recentBinsByWorkspace :=
          [("ws", ["b1","b2","b3","b4","b5","b6","b7","b8","b9","b10"])] }
      "ws" "b0" false).recentBinsByWorkspace "ws"
      = some ["b0","b1","b2","b3","b4","b5","b6","b7","b8","b9"] := by
  constructor
  · exact (push_recent_bin_effects
      { recentBinsByWorkspace :=
          [("ws", ["b1","b2","b3","b4","b5","b6","b7","b8","b9","b10"])] }
      "ws" "b0").1
  · have h := (push_recent_bin_effects
      { recentBinsByWorkspace :=
          [("ws", ["b1","b2","b3","b4","b5","b6","b7","b8","b9","b10"])] }
      "ws" "b0").2.2.2.2.2 (by decide) (by decide)
    rw [h]
    decide

/-- A captured request record as delivered by the backend
(the `RequestRecord` type of `src/index.ts`); `headers` is a JS object,
modelled as an association list with unique keys. -/
structure Req where
  id : String
  method : String := "GET"
  path : String := "/"
  headers : List (String × String) := []
  query : List (String × String) := []
  body : Option String := none
  contentType : Option String := none
  ip : Option String := none
  timestamp : Nat := 0
  size : Nat := 0
deriving DecidableEq

/-- Model of `shortRequestId` from `src/index.ts`:
`id.startsWith('req_') ? id.slice(0, 10) : 'req_' + id.slice(0, 6)`. -/
def shortRequestId (id : String) : String :=
  if strStartsWith id "req_" then strTake id 10 else "req_" ++ strTake id 6

/-- The match test of `resolveRef`:
`r.id === ref || r.id.startsWith(ref) || shortRequestId(r.id) === ref`. -/
def refMatches (ref : String) (r : Req) : Bool :=
  r.id == ref || strStartsWith r.id ref || shortRequestId r.id == ref

/-- Outcome of `resolveRef`: a found record, `null` (soft NotFound), or the
thrown ambiguity error. -/
inductive RefResult where
  | found (r : Req)
  | notFound
  | ambiguous
deriving DecidableEq

/-- Model of `resolveRef` from `src/index.ts`.  A digits-only ref is a 1-based index
(`reqs[Number(ref) - 1] ?? null`, so index 0 reads `reqs[-1]`, which is
`undefined` in JS); otherwise the filter of matching records decides between
found, NotFound and the thrown ambiguity error. -/
def resolveRef (ref : String) (reqs : List Req) : RefResult :=
  if ref = "" then RefResult.notFound
  else if strAll ref Char.isDigit then
    let index := decVal ref
    if index = 0 then RefResult.notFound
    else
      match reqs[index - 1]? with
      | some r => RefResult.found r
      | none => RefResult.notFound
  else
    match reqs.filter (refMatches ref) with
    | [] => RefResult.notFound
    | [m] => RefResult.found m
    | _ :: _ :: _ => RefResult.ambiguous

/-- Model of `formatShortId` from the legacy CLI entry point (`src/unnamed/part_000`):
`'rq_' + id.substring(0, 6)`. -/
def formatShortId (id : String) : String :=
  "rq_" ++ strTake id 6

/-- The `show` command of the legacy CLI entry point resolves a ref with
`reqs.find(...)` over the same triple match test, returning the FIRST match. -/
def part000ShowFind (requestId : String) (reqs : List Req) : Option Req :=
  reqs.find? (fun x =>
    x.id == requestId || strStartsWith x.id requestId || formatShortId x.id == requestId)

/-- C9: a digits-only ref is a 1-based index into the newest-first snapshot
(`"1"` is the newest record); every out-of-range index, including `"0"`,
yields NotFound rather than a crash. -/
theorem resolve_ref_numeric (ref : String) (reqs : List Req)
    (hne : ref ≠ "") (hdig : strAll ref Char.isDigit = true) :
    (∀ r : Req, 1 ≤ decVal ref → reqs[decVal ref - 1]? = some r →
      resolveRef ref reqs = RefResult.found r) ∧
    (decVal ref = 0 ∨ reqs.length < decVal ref →
      resolveRef ref reqs = RefResult.notFound) ∧
    (∀ (r0 : Req) (rest : List Req), resolveRef "1" (r0 :: rest) = RefResult.found r0) := by
  refine ⟨?_, ?_, ?_⟩
  · intro r h1 hr
    have hz : decVal ref ≠ 0 := by omega
    simp [resolveRef, hne, hdig, hz, hr]
  · intro hout
    rcases hout with hz | hgt
    · simp [resolveRef, hne, hdig, hz]
    · have hz : decVal ref ≠ 0 := by omega
      have hnone : reqs[decVal ref - 1]? = none := by
        rw [List.getElem?_eq_none]
        omega
      simp [resolveRef, hne, hdig, hz, hnone]
  · intro r0 rest
    have h1 : decVal "1" = 1 := by decide
    simp [resolveRef, strAll, h1]

/-- Witness for `resolve_ref_numeric` over the snapshot of §8 of the spec:
three records newest-first, ref `"1"` finds the newest, `"5"` and `"0"` are
NotFound. -/
theorem resolve_ref_numeric_witness :
    resolveRef "1" [{ id := "r1", timestamp := 300 }, { id := "r2", timestamp := 200 },
      { id := "r3", timestamp := 100 }] = RefResult.found { id := "r1", timestamp := 300 } ∧
    resolveRef "5" [{ id := "r1", timestamp := 300 }, { id := "r2", timestamp := 200 },
      { id := "r3", timestamp := 100 }] = RefResult.notFound ∧
    resolveRef "0" [{ id := "r1", timestamp := 300 }, { id := "r2", timestamp := 200 },
      { id := "r3", timestamp := 100 }] = RefResult.notFound := by
  refine ⟨?_, ?_, ?_⟩
  · exact (resolve_ref_numeric "1" _ (by decide) (by decide)).1
      { id := "r1", timestamp := 300 } (by decide) (by decide)
  · exact (resolve_ref_numeric "5" _ (by decide) (by decide)).2.1 (by right; decide)
  · exact (resolve_ref_numeric "0" _ (by decide) (by decide)).2.1 (by left; decide)

/-- C4 (amended): in the current CLI (`src/index.ts`), every non-digit ref
matching more than one record makes `resolveRef` raise the ambiguity error,
which is distinct from NotFound and never a record. -/
theorem ambiguous_ref_hard_error (ref : String) (reqs : List Req)
    (hne : ref ≠ "") (hnd : strAll ref Char.isDigit = false)
    (hmulti : 2 ≤ (reqs.filter (refMatches ref)).length) :
    resolveRef ref reqs = RefResult.ambiguous ∧
    (∀ r : Req, resolveRef ref reqs ≠ RefResult.found r) ∧
    resolveRef ref reqs ≠ RefResult.notFound := by
  have hres : resolveRef ref reqs = RefResult.ambiguous := by
    unfold resolveRef
    rw [if_neg hne, if_neg (by simp [hnd])]
    match hm : reqs.filter (refMatches ref) with
    | [] => rw [hm] at hmulti; simp at hmulti
    | [m] => rw [hm] at hmulti; simp at hmulti
    | _ :: _ :: _ => rfl
  refine ⟨hres, ?_, ?_⟩
  · intro r
    rw [hres]
    exact fun h => RefResult.noConfusion h
  · rw [hres]
    exact fun h => RefResult.noConfusion h

/-- Witness for `ambiguous_ref_hard_error`: a prefix matching two records. -/
theorem ambiguous_ref_hard_error_witness :
    resolveRef "req_abc" [{ id := "req_abc111" }, { id := "req_abc222" }]
      = RefResult.ambiguous := by
  exact (ambiguous_ref_hard_error "req_abc" [{ id := "req_abc111" }, { id := "req_abc222" }]
    (by decide) (by decide) (by decide)).1

/-- Counterexample to C4 as stated: the legacy CLI entry point
(`src/unnamed/part_000`) also resolves refs, but its `show` command uses
`reqs.find(...)`; with a ref matching two records it silently returns the
first matching record instead of an ambiguity error. -/
theorem ambiguous_ref_counterexample :
    ([{ id := "req_abc111" }, { id := "req_abc222" }].filter
        (refMatches "req_abc") = [{ id := "req_abc111" }, { id := "req_abc222" }]) ∧
    part000ShowFind "req_abc" [{ id := "req_abc111" }, { id := "req_abc222" }]
      = some { id := "req_abc111" } := by
  constructor
  · decide
  · decide

/-- Human-readable rendering of an exact fraction `num / den` (with `den` a
power of two, as in the source's `size / 1024`) to one decimal place, as JS
`toFixed(1)` does: nearest tenth, ties toward the larger value.  Exact for
byte counts below 2^53, where JS float division by 1024 is exact. -/
def fixed1 (num den : Nat) : String :=
  let tenths := (num * 10 + den / 2) / den
  toString (tenths / 10) ++ "." ++ toString (tenths % 10)

/-- The `bytes` size renderer of `src/index.ts`: plain bytes under 1024,
one-decimal KB under 1024 KB, else one-decimal MB. -/
def bytes (size : Nat) : String :=
  if size < 1024 then toString size ++ "B"
  else if size < 1024 * 1024 then fixed1 size 1024 ++ "KB"
  else fixed1 size (1024 * 1024) ++ "MB"

/-- Path display normalization `p || '/'` (empty string is falsy). -/
def normPath (p : String) : String :=
  if p = "" then "/" else p

/-- One emitted header diff line. -/
inductive HeaderDelta where
  | added (key : String)
  | removed (key : String)
  | changed (key : String)
deriving DecidableEq

/-- Iteration order of `new Set([...keysLeft, ...keysRight])`: first
occurrences, in insertion order. -/
def firstDedupAux : List String → List String → List String
  | [], _ => []
  | k :: rest, seen =>
    if k ∈ seen then firstDedupAux rest seen else k :: firstDedupAux rest (k :: seen)

/-- First-occurrence deduplication, the iteration order of a JS `Set`. -/
def firstDedup (l : List String) : List String :=
  firstDedupAux l []

/-- Classification of one header key in the diff loop: added when absent on
the left, removed when absent on the right, changed when both values are
present and differ, and no entry when the values agree. -/
def headerDeltaAt (lh rh : List (String × String)) (k : String) : Option HeaderDelta :=
  match alGet lh k, alGet rh k with
  | none, none => none
  | none, some _ => some (HeaderDelta.added k)
  | some _, none => some (HeaderDelta.removed k)
  | some lv, some rv => if lv = rv then none else some (HeaderDelta.changed k)

/-- All header diff entries in key-union order (before the cap of 8). -/
def allHeaderDeltas (lh rh : List (String × String)) : List HeaderDelta :=
  (firstDedup (lh.map Prod.fst ++ rh.map Prod.fst)).filterMap (headerDeltaAt lh rh)

/-- The observable output of the `diff` command action of `src/index.ts`
(lines 650-670): which entries are printed and whether
"No material differences found." is printed.  The loop breaks right after
emitting the 8th header entry, hence `take 8`. -/
structure DiffOut where
  methodEntry : Bool
  pathEntry : Bool
  sizeEntry : Bool
  headerEntries : List HeaderDelta
  noMaterial : Bool
deriving DecidableEq

/-- The diff computation of the `diff` command action of `src/index.ts`. -/
def diffRequests (left right : Req) : DiffOut :=
  { methodEntry := decide (left.method ≠ right.method)
    pathEntry := decide (normPath left.path ≠ normPath right.path)
    sizeEntry := decide (bytes left.size ≠ bytes right.size)
    headerEntries := (allHeaderDeltas left.headers right.headers).take 8
    noMaterial := decide (left.body = right.body ∧ left.method = right.method ∧
      left.path = right.path ∧ left.size = right.size) }

theorem headerDeltaAt_self (h : List (String × String)) (k : String) :
    headerDeltaAt h h k = none := by
  unfold headerDeltaAt
  cases alGet h k with
  | none => rfl
  | some v => simp

theorem allHeaderDeltas_self (h : List (String × String)) :
    allHeaderDeltas h h = [] := by
  unfold allHeaderDeltas
  rw [List.filterMap_eq_nil_iff]
  intro a _
  exact headerDeltaAt_self h a

theorem firstDedupAux_nil_of_subset (l : List String) :
    ∀ seen : List String, (∀ x ∈ l, x ∈ seen) → firstDedupAux l seen = [] := by
  induction l with
  | nil => intro seen _; rfl
  | cons a rest ih =>
    intro seen hsub
    have ha : a ∈ seen := hsub a (by simp)
    simp only [firstDedupAux, ha, if_pos]
    exact ih seen (fun x hx => hsub x (by simp [hx]))

theorem firstDedupAux_append_absorb (l1 : List String) :
    ∀ (l2 seen : List String), (∀ x ∈ l2, x ∈ l1 ∨ x ∈ seen) →
    firstDedupAux (l1 ++ l2) seen = firstDedupAux l1 seen := by
  induction l1 with
  | nil =>
    intro l2 seen hsub
    simp only [List.nil_append, firstDedupAux]
    exact firstDedupAux_nil_of_subset l2 seen (fun x hx => (hsub x hx).resolve_left (by simp))
  | cons a rest ih =>
    intro l2 seen hsub
    by_cases ha : a ∈ seen
    · simp only [List.cons_append, firstDedupAux, ha, if_pos]
      exact ih l2 seen (fun x hx => by
        rcases hsub x hx with hx1 | hx2
        · rcases List.mem_cons.1 hx1 with rfl | hx1'
          · exact Or.inr ha
          · exact Or.inl hx1'
        · exact Or.inr hx2)
    · simp only [List.cons_append, firstDedupAux, ha, if_neg, not_false_iff]
      congr 1
      exact ih l2 (a :: seen) (fun x hx => by
        rcases hsub x hx with hx1 | hx2
        · rcases List.mem_cons.1 hx1 with rfl | hx1'
          · exact Or.inr (by simp)
          · exact Or.inl hx1'
        · exact Or.inr (by simp [hx2]))

theorem firstDedupAux_eq_self_of_nodup (l : List String) :
    ∀ seen : List String, l.Nodup → (∀ x ∈ l, x ∉ seen) → firstDedupAux l seen = l := by
  induction l with
  | nil => intro seen _ _; rfl
  | cons a rest ih =>
    intro seen hnd hdis
    have ha : a ∉ seen := hdis a (by simp)
    simp only [firstDedupAux, ha, if_neg, not_false_iff]
    congr 1
    exact ih (a :: seen) (List.Nodup.of_cons hnd) (fun x hx => by
      simp only [List.mem_cons, not_or]
      exact ⟨fun he => (List.nodup_cons.1 hnd).1 (he ▸ hx), hdis x (by simp [hx])⟩)

theorem filterMap_isSome_single {β : Type} (f : String → Option β) (ks : List String) :
    ∀ (k : String) (d : β), ks.filter (fun x => (f x).isSome) = [k] → f k = some d →
    ks.filterMap f = [d] := by
  induction ks with
  | nil => intro k d h _; simp at h
  | cons a rest ih =>
    intro k d hfilter hfk
    by_cases hfa : (f a).isSome
    · rw [List.filter_cons_of_pos (by simpa using hfa)] at hfilter
      have hak : a = k := by
        have := List.head_eq_of_cons_eq hfilter
        exact this
      have hrest : rest.filter (fun x => (f x).isSome) = [] := List.tail_eq_of_cons_eq hfilter
      have hrestnone : ∀ x ∈ rest, f x = none := by
        intro x hx
        have := List.filter_eq_nil_iff.1 hrest x hx
        simpa [Option.isSome_iff_exists, Option.eq_none_iff_forall_not_mem] using this
      rw [List.filterMap_cons, hak, hfk]
      simp only []
      congr 1
      rw [List.filterMap_eq_nil_iff]
      exact hrestnone
    · have hfa' : f a = none := by
        cases hfe : f a with
        | none => rfl
        | some v => rw [hfe] at hfa; simp at hfa
      rw [List.filter_cons_of_neg (by simpa using hfa)] at hfilter
      rw [List.filterMap_cons, hfa']
      exact ih k d hfilter hfk

theorem headerDeltaAt_isSome (lh rh : List (String × String)) (k : String) :
    (headerDeltaAt lh rh k).isSome = decide (alGet lh k ≠ alGet rh k) := by
  unfold headerDeltaAt
  cases h1 : alGet lh k with
  | none =>
    cases h2 : alGet rh k with
    | none => simp
    | some v => simp
  | some v1 =>
    cases h2 : alGet rh k with
    | none => simp
    | some v2 =>
      by_cases hv : v1 = v2 <;> simp [hv]

/-- C3 (amended): the `diff` command prints "No material differences found."
exactly when `method`, RAW `path`, raw `size` and `body` are all equal (the
final check of line 668 compares `left.path === right.path` without the `||
'/'` normalization used for the path entry); two identical records yield the
signal with no entries at all. -/
theorem diff_no_material_iff (l r : Req) :
    ((diffRequests l r).noMaterial = true ↔
      (l.method = r.method ∧ l.path = r.path ∧ l.size = r.size ∧ l.body = r.body)) ∧
    ((diffRequests l l).noMaterial = true ∧
     (diffRequests l l).headerEntries = [] ∧
     (diffRequests l l).methodEntry = false ∧
     (diffRequests l l).pathEntry = false ∧
     (diffRequests l l).sizeEntry = false) := by
  refine ⟨?_, ?_, ?_, ?_, ?_, ?_⟩
  · simp only [diffRequests, decide_eq_true_eq]
    tauto
  · simp [diffRequests]
  · show (allHeaderDeltas l.headers l.headers).take 8 = []
    rw [allHeaderDeltas_self]
    rfl
  · simp [diffRequests]
  · simp [diffRequests]
  · simp [diffRequests]

/-- Counterexample to C3 as stated: two records that agree on the NORMALIZED
path (empty vs `"/"`) and on method, size and body do not trigger the
"no material differences" message, because the final check compares the raw
paths; no path entry is emitted either. -/
theorem diff_no_material_norm_path_counterexample :
    (normPath ({ id := "req_1", path := "" } : Req).path
      = normPath ({ id := "req_2", path := "/" } : Req).path) ∧
    (({ id := "req_1", path := "" } : Req).method
      = ({ id := "req_2", path := "/" } : Req).method) ∧
    (({ id := "req_1", path := "" } : Req).size
      = ({ id := "req_2", path := "/" } : Req).size) ∧
    (({ id := "req_1", path := "" } : Req).body
      = ({ id := "req_2", path := "/" } : Req).body) ∧
    (diffRequests { id := "req_1", path := "" } { id := "req_2", path := "/" }).pathEntry
      = false ∧
    (diffRequests { id := "req_1", path := "" } { id := "req_2", path := "/" }).noMaterial
      = false := by
  refine ⟨by decide, by decide, by decide, by decide, by decide, by decide⟩

/-- C1 (amended): for two records equal in method, path, size and body whose
headers carry the same (duplicate-free) keys and differ in exactly one value,
the diff emits exactly one "changed" header entry — but the
"no material differences" message IS printed, because the final check of the
source ignores headers entirely. -/
theorem diff_header_only_change (l r : Req) (k : String)
    (hm : l.method = r.method) (hp : l.path = r.path)
    (hs : l.size = r.size) (hb : l.body = r.body)
    (hkeys : l.headers.map Prod.fst = r.headers.map Prod.fst)
    (hnd : (l.headers.map Prod.fst).Nodup)
    (hone : (l.headers.map Prod.fst).filter
      (fun k0 => decide (alGet l.headers k0 ≠ alGet r.headers k0)) = [k]) :
    (diffRequests l r).headerEntries = [HeaderDelta.changed k] ∧
    (diffRequests l r).noMaterial = true := by
  have hks : firstDedup (l.headers.map Prod.fst ++ r.headers.map Prod.fst)
      = l.headers.map Prod.fst := by
    rw [← hkeys]
    unfold firstDedup
    rw [firstDedupAux_append_absorb _ _ _ (fun x hx => Or.inl hx)]
    exact firstDedupAux_eq_self_of_nodup _ _ hnd (by simp)
  have hfeq : (fun x => (headerDeltaAt l.headers r.headers x).isSome)
      = (fun k0 => decide (alGet l.headers k0 ≠ alGet r.headers k0)) :=
    funext (fun x => headerDeltaAt_isSome _ _ x)
  have hfilter : (l.headers.map Prod.fst).filter
      (fun x => (headerDeltaAt l.headers r.headers x).isSome) = [k] := by
    rw [hfeq]; exact hone
  have hkmemf : k ∈ (l.headers.map Prod.fst).filter
      (fun k0 => decide (alGet l.headers k0 ≠ alGet r.headers k0)) := by
    rw [hone]; simp
  have hkmem : k ∈ l.headers.map Prod.fst := List.mem_of_mem_filter hkmemf
  have hkdiff : alGet l.headers k ≠ alGet r.headers k := by
    have := List.of_mem_filter hkmemf
    simpa using this
  obtain ⟨v1, hv1⟩ := Option.isSome_iff_exists.1
    ((alGet_isSome_iff_mem_keys l.headers k).2 hkmem)
  obtain ⟨v2, hv2⟩ := Option.isSome_iff_exists.1
    ((alGet_isSome_iff_mem_keys r.headers k).2 (hkeys ▸ hkmem))
  have hdk : headerDeltaAt l.headers r.headers k = some (HeaderDelta.changed k) := by
    unfold headerDeltaAt
    rw [hv1, hv2]
    have hv12 : v1 ≠ v2 := fun he => hkdiff (by rw [hv1, hv2, he])
    simp [hv12]
  have hall : allHeaderDeltas l.headers r.headers = [HeaderDelta.changed k] := by
    unfold allHeaderDeltas
    rw [hks]
    exact filterMap_isSome_single _ _ _ _ hfilter hdk
  constructor
  · show (allHeaderDeltas l.headers r.headers).take 8 = [HeaderDelta.changed k]
    rw [hall]
    rfl
  · simp [diffRequests, hm, hp, hs, hb]

/-- Witness for `diff_header_only_change`: one header value differs. -/
theorem diff_header_only_change_witness :
    (diffRequests
      { id := "req_1", headers := [("host", "a.example"), ("accept", "json")] }
      { id := "req_2", headers := [("host", "a.example"), ("accept", "xml")] }).headerEntries
      = [HeaderDelta.changed "accept"] ∧
    (diffRequests
      { id := "req_1", headers := [("host", "a.example"), ("accept", "json")] }
      { id := "req_2", headers := [("host", "a.example"), ("accept", "xml")] }).noMaterial
      = true :=
  diff_header_only_change
    { id := "req_1", headers := [("host", "a.example"), ("accept", "json")] }
    { id := "req_2", headers := [("host", "a.example"), ("accept", "xml")] }
    "accept" (by decide) (by decide) (by decide) (by decide) (by decide) (by decide)
    (by decide)

/-- Counterexample to C1 as stated: with a single differing header value the
diff does emit exactly one "changed" entry, but the
"no material differences" signal is TRUE (the message is printed), since the
final check of the source only compares body, method, path and size. -/
theorem diff_header_only_change_counterexample :
    (({ id := "req_1", headers := [("a", "1")] } : Req).method
      = ({ id := "req_2", headers := [("a", "2")] } : Req).method) ∧
    (({ id := "req_1", headers := [("a", "1")] } : Req).path
      = ({ id := "req_2", headers := [("a", "2")] } : Req).path) ∧
    (({ id := "req_1", headers := [("a", "1")] } : Req).size
      = ({ id := "req_2", headers := [("a", "2")] } : Req).size) ∧
    (({ id := "req_1", headers := [("a", "1")] } : Req).body
      = ({ id := "req_2", headers := [("a", "2")] } : Req).body) ∧
    (diffRequests { id := "req_1", headers := [("a", "1")] }
      { id := "req_2", headers := [("a", "2")] }).headerEntries
      = [HeaderDelta.changed "a"] ∧
    (diffRequests { id := "req_1", headers := [("a", "1")] }
      { id := "req_2", headers := [("a", "2")] }).noMaterial = true := by
  refine ⟨by decide, by decide, by decide, by decide, by decide, by decide⟩

/-- Timestamp ordering used by the listen loop's
`sort((a, b) => a.timestamp - b.timestamp)`. -/
def tsLe (a b : Req) : Prop :=
  a.timestamp ≤ b.timestamp

instance : DecidableRel tsLe :=
  fun a b => inferInstanceAs (Decidable (a.timestamp ≤ b.timestamp))

instance : IsTotal Req tsLe :=
  ⟨fun a b => Nat.le_total a.timestamp b.timestamp⟩

instance : IsTrans Req tsLe :=
  ⟨fun _ _ _ => Nat.le_trans⟩

/-- The stable ascending-by-timestamp sort of a fetched batch.  JS array sort
with this comparator is stable (and a stable sort is unique), so insertion
sort is an exact model. -/
def sortByTs (l : List Req) : List Req :=
  List.insertionSort tsLe l

/-- The in-memory state of one `listen` invocation: `lastSince` (the
watermark), the `seen` id set, and the display row counter. -/
structure TailState where
  lastSince : Nat
  seen : List String
  rowIndex : Nat
deriving DecidableEq

/-- The body of the `forEach` over the sorted batch in the `poll` closure of
`src/index.ts` (lines 487-495): skip ids already seen, otherwise count, mark
seen, render, and advance the watermark to `max(lastSince, timestamp + 1)`.
Returns the final state and the list of rendered records in render order. -/
def processSorted : TailState → List Req → TailState × List Req
  | st, [] => (st, [])
  | st, r :: rest =>
    if r.id ∈ st.seen then processSorted st rest
    else
      let next := processSorted
        ⟨max st.lastSince (r.timestamp + 1), r.id :: st.seen, st.rowIndex + 1⟩ rest
      (next.1, r :: next.2)

/-- One successful tick: sort the fetched batch ascending by timestamp, then
process it. -/
def runTick (st : TailState) (batch : List Req) : TailState × List Req :=
  processSorted st (sortByTs batch)

/-- One tick of the poll loop, where the fetch may throw: the whole body is
inside `try { ... } catch { /* keep polling */ }`, so a failed fetch renders
nothing and leaves the state untouched. -/
def runTickE (st : TailState) (fetch : Except Unit (List Req)) : TailState × List Req :=
  match fetch with
  | Except.error _ => (st, [])
  | Except.ok batch => runTick st batch

/-- The whole polling loop over a (finite prefix of the infinite) sequence of
fetch results, concatenating everything rendered. -/
def runTicks : TailState → List (Except Unit (List Req)) → TailState × List Req
  | st, [] => (st, [])
  | st, f :: fs =>
    let p := runTickE st f
    let q := runTicks p.1 fs
    (q.1, p.2 ++ q.2)

/-- The state at the start of a `listen` invocation: watermark from `now`
(possibly moved back by `--since`), empty `seen`, row counter 0. -/
def initTailState (watermark : Nat) : TailState :=
  ⟨watermark, [], 0⟩

/-- The backend contract for one fetched batch
(`getRequests(binId, lastSince)`): every returned record is at or after the
watermark, except that already-seen records may be re-returned. -/
def honestBatch (st : TailState) (batch : List Req) : Bool :=
  batch.all (fun r => decide (st.lastSince ≤ r.timestamp) || decide (r.id ∈ st.seen))

/-- The backend contract along a whole run. -/
def honestRun : TailState → List (Except Unit (List Req)) → Bool
  | _, [] => true
  | st, f :: fs =>
    (match f with
     | Except.error _ => true
     | Except.ok b => honestBatch st b) && honestRun (runTickE st f).1 fs

/-- All record ids returned by the successful fetches of a run. -/
def fetchedIds : List (Except Unit (List Req)) → List String
  | [] => []
  | Except.ok b :: fs => b.map Req.id ++ fetchedIds fs
  | Except.error _ :: fs => fetchedIds fs

theorem sortByTs_pairwise (l : List Req) : (sortByTs l).Pairwise tsLe :=
  List.sorted_insertionSort tsLe l

theorem sortByTs_mem (r : Req) (l : List Req) : r ∈ sortByTs l ↔ r ∈ l :=
  (List.perm_insertionSort tsLe l).mem_iff

theorem processSorted_sublist (l : List Req) :
    ∀ st : TailState, (processSorted st l).2.Sublist l := by
  induction l with
  | nil => intro st; simp [processSorted]
  | cons r rest ih =>
    intro st
    by_cases h : r.id ∈ st.seen
    · simp only [processSorted, if_pos h]
      exact (ih st).trans (List.sublist_cons_self r rest)
    · simp only [processSorted, if_neg h]
      exact List.Sublist.cons₂ r (ih _)

theorem processSorted_not_seen (l : List Req) :
    ∀ st : TailState, ∀ r ∈ (processSorted st l).2, r.id ∉ st.seen := by
  induction l with
  | nil => intro st r hr; simp [processSorted] at hr
  | cons x rest ih =>
    intro st r hr
    by_cases h : x.id ∈ st.seen
    · rw [show processSorted st (x :: rest) = processSorted st rest from by
        simp only [processSorted, if_pos h]] at hr
      exact ih st r hr
    · simp only [processSorted, if_neg h] at hr
      rcases List.mem_cons.1 hr with rfl | hr'
      · exact h
      · intro habs
        exact ih _ r hr' (by simp [habs])

theorem processSorted_ids_nodup (l : List Req) :
    ∀ st : TailState, ((processSorted st l).2.map Req.id).Nodup := by
  induction l with
  | nil => intro st; simp [processSorted]
  | cons x rest ih =>
    intro st
    by_cases h : x.id ∈ st.seen
    · simp only [processSorted, if_pos h]
      exact ih st
    · simp only [processSorted, if_neg h, List.map_cons, List.nodup_cons]
      refine ⟨?_, ih _⟩
      intro habs
      rcases List.mem_map.1 habs with ⟨r, hr, hrid⟩
      have := processSorted_not_seen rest _ r hr
      exact this (by simp [hrid])

theorem processSorted_seen_mono (l : List Req) :
    ∀ st : TailState, ∀ x ∈ st.seen, x ∈ (processSorted st l).1.seen := by
  induction l with
  | nil => intro st x hx; simpa [processSorted] using hx
  | cons r rest ih =>
    intro st x hx
    by_cases h : r.id ∈ st.seen
    · simp only [processSorted, if_pos h]
      exact ih st x hx
    · simp only [processSorted, if_neg h]
      exact ih _ x (by simp [hx])

theorem processSorted_seen_iff (l : List Req) :
    ∀ (st : TailState) (x : String),
      x ∈ (processSorted st l).1.seen ↔
      (x ∈ st.seen ∨ x ∈ (processSorted st l).2.map Req.id) := by
  induction l with
  | nil => intro st x; simp [processSorted]
  | cons r rest ih =>
    intro st x
    by_cases h : r.id ∈ st.seen
    · simp only [processSorted, if_pos h]
      exact ih st x
    · simp only [processSorted, if_neg h, List.map_cons, List.mem_cons]
      rw [ih]
      simp only [List.mem_cons]
      tauto

theorem processSorted_lastSince_mono (l : List Req) :
    ∀ st : TailState, st.lastSince ≤ (processSorted st l).1.lastSince := by
  induction l with
  | nil => intro st; simp [processSorted]
  | cons r rest ih =>
    intro st
    by_cases h : r.id ∈ st.seen
    · simp only [processSorted, if_pos h]
      exact ih st
    · simp only [processSorted, if_neg h]
      exact le_trans (le_max_left _ _)
        (ih ⟨max st.lastSince (r.timestamp + 1), r.id :: st.seen, st.rowIndex + 1⟩)

theorem processSorted_ts_lt_final (l : List Req) :
    ∀ st : TailState, ∀ r ∈ (processSorted st l).2,
      r.timestamp < (processSorted st l).1.lastSince := by
  induction l with
  | nil => intro st r hr; simp [processSorted] at hr
  | cons x rest ih =>
    intro st r hr
    by_cases h : x.id ∈ st.seen
    · rw [show processSorted st (x :: rest) = processSorted st rest from by
        simp only [processSorted, if_pos h]] at hr ⊢
      exact ih st r hr
    · simp only [processSorted, if_neg h] at hr ⊢
      rcases List.mem_cons.1 hr with rfl | hr'
      · calc r.timestamp < r.timestamp + 1 := Nat.lt_succ_self _
          _ ≤ max st.lastSince (r.timestamp + 1) := le_max_right _ _
          _ ≤ _ := processSorted_lastSince_mono rest
            ⟨max st.lastSince (r.timestamp + 1), r.id :: st.seen, st.rowIndex + 1⟩
      · exact ih _ r hr'

theorem processSorted_mem_seen_of_mem (l : List Req) :
    ∀ st : TailState, ∀ r ∈ l, r.id ∈ (processSorted st l).1.seen := by
  induction l with
  | nil => intro st r hr; simp at hr
  | cons x rest ih =>
    intro st r hr
    rcases List.mem_cons.1 hr with rfl | hr'
    · by_cases h : r.id ∈ st.seen
      · simp only [processSorted, if_pos h]
        exact processSorted_seen_mono rest st r.id h
      · simp only [processSorted, if_neg h]
        exact processSorted_seen_mono rest _ r.id (by simp)
    · by_cases h : x.id ∈ st.seen
      · simp only [processSorted, if_pos h]
        exact ih st r hr'
      · simp only [processSorted, if_neg h]
        exact ih _ r hr'

theorem runTick_pairwise (st : TailState) (b : List Req) : (runTick st b).2.Pairwise tsLe :=
  List.Pairwise.sublist (processSorted_sublist (sortByTs b) st) (sortByTs_pairwise b)

theorem runTick_mem (st : TailState) (b : List Req) :
    ∀ r ∈ (runTick st b).2, r ∈ b :=
  fun r hr => (sortByTs_mem r b).1 ((processSorted_sublist (sortByTs b) st).subset hr)

theorem runTick_honest_ts (st : TailState) (b : List Req) (hb : honestBatch st b = true) :
    ∀ r ∈ (runTick st b).2, st.lastSince ≤ r.timestamp := by
  intro r hr
  have hmem : r ∈ b := runTick_mem st b r hr
  have hns : r.id ∉ st.seen := processSorted_not_seen (sortByTs b) st r hr
  have hall := (List.all_eq_true.1 hb) r hmem
  simp only [Bool.or_eq_true, decide_eq_true_eq] at hall
  tauto

theorem runTickE_seen_mono (st : TailState) (f : Except Unit (List Req)) :
    ∀ x ∈ st.seen, x ∈ (runTickE st f).1.seen := by
  cases f with
  | error e => intro x hx; exact hx
  | ok b => exact processSorted_seen_mono (sortByTs b) st

theorem runTickE_lastSince_mono (st : TailState) (f : Except Unit (List Req)) :
    st.lastSince ≤ (runTickE st f).1.lastSince := by
  cases f with
  | error e => exact le_refl _
  | ok b => exact processSorted_lastSince_mono (sortByTs b) st

theorem runTickE_not_seen (st : TailState) (f : Except Unit (List Req)) :
    ∀ r ∈ (runTickE st f).2, r.id ∉ st.seen := by
  cases f with
  | error e => intro r hr; simp [runTickE] at hr
  | ok b => exact processSorted_not_seen (sortByTs b) st

theorem runTickE_ids_nodup (st : TailState) (f : Except Unit (List Req)) :
    ((runTickE st f).2.map Req.id).Nodup := by
  cases f with
  | error e => simp [runTickE]
  | ok b => exact processSorted_ids_nodup (sortByTs b) st

theorem runTickE_seen_iff (st : TailState) (f : Except Unit (List Req)) (x : String) :
    x ∈ (runTickE st f).1.seen ↔
    (x ∈ st.seen ∨ x ∈ (runTickE st f).2.map Req.id) := by
  cases f with
  | error e => simp [runTickE]
  | ok b => exact processSorted_seen_iff (sortByTs b) st x

theorem runTickE_pairwise (st : TailState) (f : Except Unit (List Req)) :
    (runTickE st f).2.Pairwise tsLe := by
  cases f with
  | error e => simp [runTickE]
  | ok b => exact runTick_pairwise st b

theorem runTickE_ts_lt_final (st : TailState) (f : Except Unit (List Req)) :
    ∀ r ∈ (runTickE st f).2, r.timestamp < (runTickE st f).1.lastSince := by
  cases f with
  | error e => intro r hr; simp [runTickE] at hr
  | ok b => exact processSorted_ts_lt_final (sortByTs b) st

theorem runTickE_honest_ts (st : TailState) (f : Except Unit (List Req))
    (hb : (match f with
      | Except.error _ => true
      | Except.ok b => honestBatch st b) = true) :
    ∀ r ∈ (runTickE st f).2, st.lastSince ≤ r.timestamp := by
  cases f with
  | error e => intro r hr; simp [runTickE] at hr
  | ok b => exact runTick_honest_ts st b hb

theorem runTicks_seen_mono (fs : List (Except Unit (List Req))) :
    ∀ (st : TailState) (x : String), x ∈ st.seen → x ∈ (runTicks st fs).1.seen := by
  induction fs with
  | nil => intro st x hx; exact hx
  | cons f fs ih =>
    intro st x hx
    simp only [runTicks]
    exact ih _ x (runTickE_seen_mono st f x hx)

theorem runTicks_lastSince_mono (fs : List (Except Unit (List Req))) :
    ∀ st : TailState, st.lastSince ≤ (runTicks st fs).1.lastSince := by
  induction fs with
  | nil => intro st; exact le_refl _
  | cons f fs ih =>
    intro st
    simp only [runTicks]
    exact le_trans (runTickE_lastSince_mono st f) (ih _)

theorem runTicks_not_seen (fs : List (Except Unit (List Req))) :
    ∀ (st : TailState), ∀ r ∈ (runTicks st fs).2, r.id ∉ st.seen := by
  induction fs with
  | nil => intro st r hr; simp [runTicks] at hr
  | cons f fs ih =>
    intro st r hr
    simp only [runTicks, List.mem_append] at hr
    rcases hr with hr1 | hr2
    · exact runTickE_not_seen st f r hr1
    · intro habs
      exact ih _ r hr2 (runTickE_seen_mono st f r.id habs)

theorem runTickE_displayed_seen (st : TailState) (f : Except Unit (List Req)) :
    ∀ r ∈ (runTickE st f).2, r.id ∈ (runTickE st f).1.seen := by
  intro r hr
  exact (runTickE_seen_iff st f r.id).2 (Or.inr (List.mem_map.2 ⟨r, hr, rfl⟩))

theorem runTicks_ids_nodup (fs : List (Except Unit (List Req))) :
    ∀ st : TailState, ((runTicks st fs).2.map Req.id).Nodup := by
  induction fs with
  | nil => intro st; simp [runTicks]
  | cons f fs ih =>
    intro st
    simp only [runTicks, List.map_append]
    rw [List.nodup_append]
    refine ⟨runTickE_ids_nodup st f, ih _, ?_⟩
    intro a ha1 ha2
    rcases List.mem_map.1 ha1 with ⟨r, hr, rfl⟩
    rcases List.mem_map.1 ha2 with ⟨r', hr', hid⟩
    have hseen : r.id ∈ (runTickE st f).1.seen := runTickE_displayed_seen st f r hr
    have hnot : r'.id ∉ (runTickE st f).1.seen := runTicks_not_seen fs _ r' hr'
    exact hnot (hid ▸ hseen)

theorem runTicks_seen_iff (fs : List (Except Unit (List Req))) :
    ∀ (st : TailState) (x : String),
      x ∈ (runTicks st fs).1.seen ↔
      (x ∈ st.seen ∨ x ∈ (runTicks st fs).2.map Req.id) := by
  induction fs with
  | nil => intro st x; simp [runTicks]
  | cons f fs ih =>
    intro st x
    simp only [runTicks, List.map_append, List.mem_append]
    rw [ih, runTickE_seen_iff]
    tauto

theorem runTicks_fetched_seen (fs : List (Except Unit (List Req))) :
    ∀ (st : TailState) (x : String), x ∈ fetchedIds fs → x ∈ (runTicks st fs).1.seen := by
  induction fs with
  | nil => intro st x hx; simp [fetchedIds] at hx
  | cons f fs ih =>
    intro st x hx
    simp only [runTicks]
    cases f with
    | error e =>
      exact ih _ x hx
    | ok b =>
      simp only [fetchedIds, List.mem_append] at hx
      rcases hx with hx1 | hx2
      · rcases List.mem_map.1 hx1 with ⟨r, hr, rfl⟩
        refine runTicks_seen_mono fs _ r.id ?_
        exact processSorted_mem_seen_of_mem (sortByTs b) st r ((sortByTs_mem r b).2 hr)
      · exact ih _ x hx2

theorem runTicks_honest_ts_ge (fs : List (Except Unit (List Req))) :
    ∀ st : TailState, honestRun st fs = true →
      ∀ r ∈ (runTicks st fs).2, st.lastSince ≤ r.timestamp := by
  induction fs with
  | nil => intro st _ r hr; simp [runTicks] at hr
  | cons f fs ih =>
    intro st hh r hr
    simp only [runTicks, List.mem_append] at hr
    cases f with
    | error e =>
      simp only [honestRun, Bool.true_and] at hh
      rcases hr with hr1 | hr2
      · simp [runTickE] at hr1
      · exact ih _ hh r hr2
    | ok b =>
      simp only [honestRun, Bool.and_eq_true] at hh
      rcases hr with hr1 | hr2
      · exact runTick_honest_ts st b hh.1 r hr1
      · exact le_trans (runTickE_lastSince_mono st (Except.ok b)) (ih _ hh.2 r hr2)

theorem runTicks_honest_pairwise (fs : List (Except Unit (List Req))) :
    ∀ st : TailState, honestRun st fs = true → (runTicks st fs).2.Pairwise tsLe := by
  induction fs with
  | nil => intro st _; simp [runTicks]
  | cons f fs ih =>
    intro st hh
    simp only [runTicks]
    rw [List.pairwise_append]
    cases f with
    | error e =>
      simp only [honestRun, Bool.true_and] at hh
      refine ⟨runTickE_pairwise st (Except.error e), ih _ hh, ?_⟩
      intro a ha b hb
      simp [runTickE] at ha
    | ok b =>
      simp only [honestRun, Bool.and_eq_true] at hh
      refine ⟨runTickE_pairwise st (Except.ok b), ih _ hh.2, ?_⟩
      intro a ha c hc
      have h1 : a.timestamp < (runTickE st (Except.ok b)).1.lastSince :=
        runTickE_ts_lt_final st (Except.ok b) a ha
      have h2 : (runTickE st (Except.ok b)).1.lastSince ≤ c.timestamp :=
        runTicks_honest_ts_ge fs _ hh.2 c hc
      exact Nat.le_of_lt (Nat.lt_of_lt_of_le h1 h2)

/-- C5: a tick whose fetch throws is fully suppressed: it changes neither the
watermark nor the seen set nor the rendered output, and the loop goes on to
process the remaining ticks exactly as if the failing tick had not happened. -/
theorem listen_error_tick_noop (st : TailState) (xs ys : List (Except Unit (List Req))) :
    runTickE st (Except.error ()) = (st, []) ∧
    runTicks st (xs ++ Except.error () :: ys) = runTicks st (xs ++ ys) := by
  refine ⟨rfl, ?_⟩
  induction xs generalizing st with
  | nil => simp [runTicks, runTickE]
  | cons f xs ih =>
    simp only [List.cons_append, runTicks, List.append_eq]
    rw [ih]

/-- C2 (amended): in the current CLI (`src/index.ts`), within one listen
invocation over an honest fetch sequence (each batch holds only records at or
after the current watermark, plus possibly re-returned already-seen records),
every id ever fetched is rendered exactly once — in particular a record
re-returned by a later tick is not repeated — and the rendered records are in
non-decreasing timestamp order (ties only between distinct records sharing a
timestamp).  The legacy entry point's poll loop keeps no seen set and lacks
both guarantees; see the accompanying counterexample. -/
theorem listen_dedup_and_order (watermark : Nat) (fetches : List (Except Unit (List Req)))
    (hhonest : honestRun (initTailState watermark) fetches = true) :
    (∀ x ∈ fetchedIds fetches,
      (((runTicks (initTailState watermark) fetches).2.map Req.id).count x) = 1) ∧
    ((runTicks (initTailState watermark) fetches).2.Pairwise tsLe) := by
  constructor
  · intro x hx
    have hseen : x ∈ (runTicks (initTailState watermark) fetches).1.seen :=
      runTicks_fetched_seen fetches _ x hx
    have hmem : x ∈ (runTicks (initTailState watermark) fetches).2.map Req.id := by
      rcases (runTicks_seen_iff fetches _ x).1 hseen with h0 | h1
      · simp [initTailState] at h0
      · exact h1
    exact List.count_eq_one_of_mem (runTicks_ids_nodup fetches _) hmem
  · exact runTicks_honest_pairwise fetches _ hhonest

/-- Witness for `listen_dedup_and_order`: tick 2 re-returns the boundary
record already rendered by tick 1; it is rendered exactly once and the
output is ordered. -/
theorem listen_dedup_and_order_witness :
    ((runTicks (initTailState 0)
        [Except.ok [{ id := "req_a", timestamp := 100 }],
         Except.ok [{ id := "req_a", timestamp := 100 },
                    { id := "req_b", timestamp := 101 }]]).2.map Req.id).count "req_a" = 1 ∧
    ((runTicks (initTailState 0)
        [Except.ok [{ id := "req_a", timestamp := 100 }],
         Except.ok [{ id := "req_a", timestamp := 100 },
                    { id := "req_b", timestamp := 101 }]]).2.Pairwise tsLe) := by
  constructor
  · exact (listen_dedup_and_order 0
      [Except.ok [{ id := "req_a", timestamp := 100 }],
       Except.ok [{ id := "req_a", timestamp := 100 },
                  { id := "req_b", timestamp := 101 }]] (by decide)).1 "req_a" (by decide)
  · exact (listen_dedup_and_order 0
      [Except.ok [{ id := "req_a", timestamp := 100 }],
       Except.ok [{ id := "req_a", timestamp := 100 },
                  { id := "req_b", timestamp := 101 }]] (by decide)).2

/-- Lowercasing of the duration unit characters (the regex is
case-insensitive and the matched unit goes through `toLowerCase()`); any
character other than the unit letters M/S/H fails the unit match unchanged. -/
def lowerDurationChar (c : Char) : Char :=
  if c = 'M' then 'm' else if c = 'S' then 's' else if c = 'H' then 'h' else c

/-- Model of `parseDurationMs` from `src/index.ts`: `undefined`/empty input gives
`undefined`; otherwise the trimmed value must match `^(\d+)(ms|s|m|h)?$`
case-insensitively, the default unit being `ms`.  The maximal digit prefix
plus a unit-only remainder is exactly the regex match. -/
def parseDurationMs (value : Option String) : Option Nat :=
  match value with
  | none => none
  | some v =>
    if v = "" then none
    else
      let t := strTrim v
      let digits : List Char := t.data.takeWhile Char.isDigit
      let unit : List Char := (t.data.drop digits.length).map lowerDurationChar
      if digits = [] then none
      else
        let amount := digits.foldl (fun acc c => acc * 10 + (c.toNat - 48)) 0
        if unit = [] ∨ unit = ['m', 's'] then some amount
        else if unit = ['s'] then some (amount * 1000)
        else if unit = ['m'] then some (amount * 60000)
        else if unit = ['h'] then some (amount * 3600000)
        else none

/-- The watermark initialization of the `listen` action (`src/index.ts`
lines 472-476): `lastSince = Date.now()`, then `if (sinceMs)` — a JS
truthiness test, under which both `undefined` and `0` fall through —
`lastSince = Date.now() - sinceMs`.  Both `Date.now()` reads are modelled as
the same instant `now`. -/
def initialWatermark (now : Nat) (since : Option String) : Nat :=
  match parseDurationMs since with
  | some ms => if ms = 0 then now else now - ms
  | none => now

/-- C10: every syntactically valid duration with amount 0 parses to `some 0`,
and the listen command then behaves exactly as for invalid or absent input:
no look-back, the watermark starts at the current time. -/
theorem zero_duration_no_lookback :
    parseDurationMs (some "0") = some 0 ∧
    parseDurationMs (some "0s") = some 0 ∧
    parseDurationMs (some "0m") = some 0 ∧
    (∀ (s : String) (now : Nat), parseDurationMs (some s) = some 0 →
      initialWatermark now (some s) = now) ∧
    (∀ now : Nat, initialWatermark now none = now) ∧
    (∀ (s : String) (now : Nat), parseDurationMs (some s) = none →
      initialWatermark now (some s) = now) := by
  refine ⟨by decide, by decide, by decide, ?_, ?_, ?_⟩
  · intro s now h
    simp [initialWatermark, h]
  · intro now
    rfl
  · intro s now h
    simp [initialWatermark, h]

/-- Witness for `zero_duration_no_lookback`: with `--since 0s`, with an
invalid duration, and with no `--since` at all, the watermark is the current
time. -/
theorem zero_duration_no_lookback_witness :
    initialWatermark 1700000000000 (some "0s") = 1700000000000 ∧
    initialWatermark 1700000000000 (some "5x") = 1700000000000 ∧
    initialWatermark 1700000000000 none = 1700000000000 := by
  refine ⟨?_, ?_, ?_⟩
  · exact zero_duration_no_lookback.2.2.2.1 "0s" 1700000000000 (by decide)
  · exact zero_duration_no_lookback.2.2.2.2.2 "5x" 1700000000000 (by decide)
  · exact zero_duration_no_lookback.2.2.2.2.1 1700000000000

/-- ASCII uppercasing, JS `toUpperCase()` on the method strings compared by
the legacy loop's `--method` filter. -/
def strUpperAscii (s : String) : String :=
  ⟨s.data.map (fun c => if 'a' ≤ c ∧ c ≤ 'z' then Char.ofNat (c.toNat - 32) else c)⟩

/-- The `--method` filter guard of the legacy poll loop
(`if (options.method && req.method.toUpperCase() !== options.method.toUpperCase()) return`):
skip only when a filter is given and the uppercased methods differ. -/
def part000MethodSkip (methodFilter : Option String) (r : Req) : Bool :=
  match methodFilter with
  | none => false
  | some m => strUpperAscii r.method != strUpperAscii m

/-- The in-memory state of one legacy `listen` invocation
(`src/unnamed/part_000`): only `lastTimestamp` and the bounded
`requestsCache` — there is NO seen set. -/
structure LegacyTailState where
  lastTimestamp : Nat
  requestsCache : List Req
deriving DecidableEq

/-- The body of the `forEach` over the sorted batch in the legacy poll loop
(`src/unnamed/part_000` lines 380-390): apply the method filter, render every
surviving record (no duplicate suppression), advance
`lastTimestamp = max(lastTimestamp, timestamp + 1)`, `unshift` onto the cache
and `pop` beyond 10 entries. -/
def legacyProcessSorted : LegacyTailState → Option String → List Req → LegacyTailState × List Req
  | st, _, [] => (st, [])
  | st, mf, r :: rest =>
    if part000MethodSkip mf r then legacyProcessSorted st mf rest
    else
      let cache := r :: st.requestsCache
      let next := legacyProcessSorted
        ⟨max st.lastTimestamp (r.timestamp + 1),
         if cache.length > 10 then cache.dropLast else cache⟩ mf rest
      (next.1, r :: next.2)

/-- One tick of the legacy poll loop: the `if (requests.length > 0)` guard is
behaviourally a no-op (an empty batch sorts and iterates to nothing), and a
throwing fetch is quietly swallowed exactly as in the current loop. -/
def legacyRunTickE (st : LegacyTailState) (methodFilter : Option String)
    (fetch : Except Unit (List Req)) : LegacyTailState × List Req :=
  match fetch with
  | Except.error _ => (st, [])
  | Except.ok batch => legacyProcessSorted st methodFilter (sortByTs batch)

/-- The legacy polling loop over a finite prefix of fetch results. -/
def legacyRunTicks : LegacyTailState → Option String → List (Except Unit (List Req)) →
    LegacyTailState × List Req
  | st, _, [] => (st, [])
  | st, mf, f :: fs =>
    let p := legacyRunTickE st mf f
    let q := legacyRunTicks p.1 mf fs
    (q.1, p.2 ++ q.2)

/-- Counterexample to C2 as stated, on both cited loops.  First, the current
loop (`src/index.ts`): an honest batch fetched out of backend order holding
two distinct records with equal timestamps is rendered in non-decreasing but
NOT strictly ascending order.  Second, the legacy poll loop
(`src/unnamed/part_000` lines 374-398) keeps no seen set, so when a later
tick re-returns the boundary record already shown by an earlier tick — the
re-delivery the claim's premise describes — that record is rendered TWICE,
not exactly once. -/
theorem listen_claim_counterexample :
    (honestRun (initTailState 0)
      [Except.ok [{ id := "req_b", timestamp := 100 },
                  { id := "req_a", timestamp := 100 },
                  { id := "req_c", timestamp := 50 }]] = true ∧
     (runTicks (initTailState 0)
      [Except.ok [{ id := "req_b", timestamp := 100 },
                  { id := "req_a", timestamp := 100 },
                  { id := "req_c", timestamp := 50 }]]).2
      = [{ id := "req_c", timestamp := 50 },
         { id := "req_b", timestamp := 100 },
         { id := "req_a", timestamp := 100 }] ∧
     ¬ ((runTicks (initTailState 0)
      [Except.ok [{ id := "req_b", timestamp := 100 },
                  { id := "req_a", timestamp := 100 },
                  { id := "req_c", timestamp := 50 }]]).2.Pairwise
        (fun a b => a.timestamp < b.timestamp))) ∧
    ((legacyRunTicks ⟨0, []⟩ none
      [Except.ok [{ id := "req_a", timestamp := 100 }],
       Except.ok [{ id := "req_a", timestamp := 100 },
                  { id := "req_b", timestamp := 101 }]]).2.map Req.id)
      = ["req_a", "req_a", "req_b"] ∧
    (((legacyRunTicks ⟨0, []⟩ none
      [Except.ok [{ id := "req_a", timestamp := 100 }],
       Except.ok [{ id := "req_a", timestamp := 100 },
                  { id := "req_b", timestamp := 101 }]]).2.map Req.id).count "req_a") = 2 := by
  refine ⟨⟨by decide, by decide, ?_⟩, by decide, by decide⟩
  intro h
  have h2 := (List.pairwise_cons.1 (List.pairwise_cons.1 h).2).1
    { id := "req_a", timestamp := 100 } (by decide)
  simp at h2
